import Mathlib

/-!
Shallow embedding of the gravity compression pipeline
(internal/worker/processor.go, internal/worker/otlp_parser.go,
cmd/reconstruct/main.go).

Go strings are modelled as lists of characters; the byte view used for
hashing is the UTF-8 encoding computed explicitly.  External collaborators
(the BLAKE3 hash from github.com/zeebo/blake3, gzip from compress/gzip,
JSON serialization from encoding/json, and the S3 client) are modelled at
their interface boundary: the hash and the compression codec are
parameters, JSON documents are kept as structured values, and S3 is a
key-value map together with failure schedules for HeadObject and
PutObject calls.
-/

namespace Gravity

/-- A Go string, viewed as its sequence of characters. -/
abbrev Str := List Char

/-- The newline string hardcoded in cmd/reconstruct/main.go when joining
decompressed chunks. -/
def nl : Str := "\n".data

/-- Association-list lookup used to model S3 GetObject/HeadObject against
the set of stored objects; the most recently put value for a key wins,
matching PutObject overwrite semantics (new puts are consed at the front). -/
def slookup {α : Type} (k : Str) : List (Str × α) → Option α
  | [] => none
  | (k', v) :: rest => if k' = k then some v else slookup k rest

/-- unicode.IsSpace from the Go standard library, restricted to the
Latin-1 range (tab, newline, vertical tab, form feed, carriage return,
space, next line, no-break space).  Characters of the wider Unicode
White_Space class do not occur in the string constants of this codebase. -/
def goIsSpace (c : Char) : Bool :=
  c = ' ' || c = '\t' || c = '\n' || c = '\r' ||
  c = Char.ofNat 11 || c = Char.ofNat 12 || c = Char.ofNat 133 || c = Char.ofNat 160

/-- strings.TrimSpace: drop leading and trailing whitespace characters. -/
def trimSpace (s : Str) : Str :=
  ((s.dropWhile goIsSpace).reverse.dropWhile goIsSpace).reverse

/-- First occurrence of sep in s: returns the part before the first
occurrence and the part after it, or none when sep does not occur.
Helper for the model of strings.Split. -/
def findSep (sep : Str) : Str → Option (Str × Str)
  | [] => if sep = [] then some ([], []) else none
  | c :: rest =>
    if sep.isPrefixOf (c :: rest) then some ([], (c :: rest).drop sep.length)
    else (findSep sep rest).map (fun p => (c :: p.1, p.2))

/-- Fuel-driven splitting loop: cut at the first occurrence of sep and
recurse on the remainder.  The fuel (length of the subject string) is an
upper bound on the number of cuts when sep is non-empty. -/
def splitGo (sep : Str) : Nat → Str → List Str
  | 0, s => [s]
  | fuel + 1, s =>
    match findSep sep s with
    | none => [s]
    | some (before, after) => before :: splitGo sep fuel after

/-- strings.Split(s, sep): the substrings of s between occurrences of sep.
For empty sep, Go splits after each rune. -/
def splitOnSep (sep s : Str) : List Str :=
  if sep = [] then s.map (fun c => [c]) else splitGo sep s.length s

/-- chunkContent (processor.go): split the content by the configured
separator, trim each piece, and keep only the non-empty results.
Empty content yields no chunks. -/
def chunkContent (sep : Str) (content : Str) : List Str :=
  if content = [] then []
  else (splitOnSep sep content).filterMap fun c =>
    let t := trimSpace c
    if t = [] then none else some t

/-- One lowercase hexadecimal digit, as produced by encoding/hex. -/
def hexDigit (n : Nat) : Char :=
  if n < 10 then Char.ofNat (48 + n) else Char.ofNat (87 + n)

/-- hex.EncodeToString: two lowercase hex digits per byte. -/
def hexEncode (bs : List Nat) : Str :=
  bs.flatMap fun b => [hexDigit (b / 16), hexDigit (b % 16)]

/-- UTF-8 encoding of one character, the byte view Go takes of a string. -/
def utf8EncodeChar (c : Char) : List Nat :=
  let n := c.toNat
  if n < 128 then [n]
  else if n < 2048 then [192 + n / 64, 128 + n % 64]
  else if n < 65536 then [224 + n / 4096, 128 + (n / 64) % 64, 128 + n % 64]
  else [240 + n / 262144, 128 + (n / 4096) % 64, 128 + (n / 64) % 64, 128 + n % 64]

/-- The byte sequence of a Go string: UTF-8 code units. -/
def strBytes (s : Str) : List Nat := s.flatMap utf8EncodeChar

/-- The BLAKE3 256-bit hash (github.com/zeebo/blake3) is an external
library; it is modelled as a parameter mapping a byte sequence to its
32-byte digest. -/
abbrev HashFn := List Nat → List Nat

/-- Interface contract of blake3.Sum256: the digest is exactly 32 bytes. -/
def HashOK (hf : HashFn) : Prop :=
  ∀ bs, (hf bs).length = 32 ∧ ∀ b ∈ hf bs, b < 256

/-- hashChunk (processor.go): BLAKE3 digest of the raw bytes of the chunk,
rendered as a lowercase hex string. -/
def hashChunk (hf : HashFn) (chunk : Str) : Str :=
  hexEncode (hf (strBytes chunk))

/-- Worker configuration (internal/worker, Config).  Only the fields the
modelled operations read are kept: the chunk separator and the blob and
index key prefixes.  Bucket, region, polling and concurrency fields do not
influence the modelled functions. -/
structure Config where
  chunkSeparator : Str
  blobsPath : Str
  indexesPath : Str

/-- The defaults installed by LoadConfig: CHUNK_SEPARATOR "\n",
BLOBS_PATH "blobs/", INDEXES_PATH "indexes/". -/
def defaultConfig : Config :=
  { chunkSeparator := "\n".data, blobsPath := "blobs/".data, indexesPath := "indexes/".data }

/-- getBlobKey (processor.go): BlobsPath + hash[0:2] + "/" + hash + ".gz".
Go would panic on a digest shorter than two characters; digests produced
by hashChunk always have 64. -/
def getBlobKey (cfg : Config) (hash : Str) : Str :=
  cfg.blobsPath ++ hash.take 2 ++ "/".data ++ hash ++ ".gz".data

/-- The index object key used by storeIndex (processor.go):
IndexesPath + traceID + ".json". -/
def indexKey (cfg : Config) (traceID : Str) : Str :=
  cfg.indexesPath ++ traceID ++ ".json".data

/-- The fragment of JSON needed for the index documents produced by
encoding/json on the ChunkIndex struct. -/
inductive Json where
  | str (s : Str)
  | arr (xs : List Json)
  | obj (fields : List (Str × Json))

/-- ChunkIndex (processor.go and cmd/reconstruct/main.go): the index
document binding one trace and span to its ordered digest list. -/
structure ChunkIndex where
  traceID : Str
  spanID : Str
  hashes : List Str

/-- json.Marshal of a ChunkIndex: exactly the three tagged fields
trace_id, span_id and hashes, in struct order.  The rendering of this
structured value to indented bytes is the external encoding/json layer;
the store keeps the structured value. -/
def ChunkIndex.toJson (idx : ChunkIndex) : Json :=
  .obj [("trace_id".data, .str idx.traceID),
        ("span_id".data, .str idx.spanID),
        ("hashes".data, .arr (idx.hashes.map .str))]

/-- Decoding of a JSON array of strings; a non-string element is an
unmarshal error, as in encoding/json. -/
def jStrList : List Json → Option (List Str)
  | [] => some []
  | .str s :: rest => (jStrList rest).map (fun l => s :: l)
  | .arr _ :: _ => none
  | .obj _ :: _ => none

/-- A string-typed field: an absent field leaves the zero value "",
a present field of another type is an unmarshal error. -/
def jGetStr (fields : List (Str × Json)) (name : Str) : Option Str :=
  match slookup name fields with
  | none => some []
  | some (.str s) => some s
  | some _ => none

/-- A string-list-typed field: absent leaves the nil slice, a non-array
value or a non-string element is an unmarshal error. -/
def jGetStrArr (fields : List (Str × Json)) (name : Str) : Option (List Str) :=
  match slookup name fields with
  | none => some []
  | some (.arr xs) => jStrList xs
  | some _ => none

/-- json.Unmarshal into the reconstructor ChunkIndex struct: the document
must be an object; the three known fields are read and others ignored. -/
def ChunkIndex.fromJson : Json → Option ChunkIndex
  | .obj fields => do
      let t ← jGetStr fields ("trace_id".data)
      let s ← jGetStr fields ("span_id".data)
      let hs ← jGetStrArr fields ("hashes".data)
      some ⟨t, s, hs⟩
  | _ => none

/-- A stored S3 object: compressed blob bytes, or an index document kept
in its structured form. -/
inductive ObjVal where
  | bytes (bs : List Nat)
  | doc (j : Json)

/-- The S3 bucket as seen by the worker and the reconstructor: the stored
objects (newest put first), the keys for which HeadObject fails with an
error other than NotFound, the keys for which PutObject fails, and a
counter of successful blob PutObject calls. -/
structure S3State where
  objects : List (Str × ObjVal)
  headFail : List Str
  putFail : List Str
  blobPuts : Nat

/-- The empty bucket with no scheduled failures. -/
def emptyS3 : S3State := { objects := [], headFail := [], putFail := [], blobPuts := 0 }

/-- blobExists (processor.go): a HeadObject round trip.  A NotFound answer
(the key is absent) is reported as false with no error; any other failure
of the call is an error. -/
def blobExists (st : S3State) (key : Str) : Except Unit Bool :=
  if key ∈ st.headFail then .error ()
  else .ok (slookup key st.objects).isSome

/-- storeBlob (processor.go): PutObject of the compressed bytes. -/
def storeBlob (st : S3State) (key : Str) (data : List Nat) : Except Unit S3State :=
  if key ∈ st.putFail then .error ()
  else .ok { st with objects := (key, .bytes data) :: st.objects, blobPuts := st.blobPuts + 1 }

/-- storeIndex (processor.go): serialize the index and PutObject it at
IndexesPath + traceID + ".json". -/
def storeIndex (cfg : Config) (st : S3State) (traceID : Str) (idx : ChunkIndex) :
    Except Unit S3State :=
  if indexKey cfg traceID ∈ st.putFail then .error ()
  else .ok { st with objects := (indexKey cfg traceID, .doc idx.toJson) :: st.objects }

/-- Which S3 operation of processSpanContent failed. -/
inductive FailStage where
  | headCheck
  | putBlob
  | putIndex
deriving DecidableEq

/-- Result of the chunk loop of processSpanContent: the collected digest
list and the store state, or the first failure together with the state at
that point (a Go early return: nothing after the failing call runs). -/
inductive ChunksOut where
  | ok (hashes : List Str) (st : S3State)
  | err (stage : FailStage) (st : S3State)

/-- The per-chunk loop of processSpanContent (processor.go, lines 89-122):
hash the chunk, append its digest, head-check the blob key, and compress
and put the blob when absent.  An error from the existence check or the
put returns immediately, abandoning the remaining chunks and the digest
list. -/
def processChunks (cfg : Config) (hf : HashFn) (comp : Str → List Nat) :
    List Str → S3State → ChunksOut
  | [], st => .ok [] st
  | chunk :: rest, st =>
    if chunk = [] then processChunks cfg hf comp rest st
    else
      match blobExists st (getBlobKey cfg (hashChunk hf chunk)) with
      | .error _ => .err .headCheck st
      | .ok true =>
        match processChunks cfg hf comp rest st with
        | .ok hs st' => .ok (hashChunk hf chunk :: hs) st'
        | .err e st' => .err e st'
      | .ok false =>
        match storeBlob st (getBlobKey cfg (hashChunk hf chunk)) (comp chunk) with
        | .error _ => .err .putBlob st
        | .ok st1 =>
          match processChunks cfg hf comp rest st1 with
          | .ok hs st' => .ok (hashChunk hf chunk :: hs) st'
          | .err e st' => .err e st'

/-- Extracted span content (otlp_parser.go, ExtractedContent). -/
structure ExtractedContent where
  traceID : Str
  spanID : Str
  content : Str

/-- Result of processSpanContent: success or the first failure, with the
store state reached. -/
inductive PResult where
  | ok (st : S3State)
  | err (stage : FailStage) (st : S3State)

/-- The store state carried by a PResult. -/
def PResult.state : PResult → S3State
  | .ok st => st
  | .err _ st => st

/-- The store state carried by a ChunksOut. -/
def ChunksOut.state : ChunksOut → S3State
  | .ok _ st => st
  | .err _ st => st

/-- processSpanContent (processor.go): chunk the content, run the chunk
loop, and when at least one digest was collected store the index document
for the trace.  Any chunk-stage or index-write failure is returned as the
span error. -/
def processSpanContent (cfg : Config) (hf : HashFn) (comp : Str → List Nat)
    (content : ExtractedContent) (st : S3State) : PResult :=
  let chunks := chunkContent cfg.chunkSeparator content.content
  if chunks = [] then .ok st
  else
    match processChunks cfg hf comp chunks st with
    | .err e st' => .err e st'
    | .ok hashes st' =>
      if hashes = [] then .ok st'
      else
        match storeIndex cfg st' content.traceID ⟨content.traceID, content.spanID, hashes⟩ with
        | .error _ => .err .putIndex st'
        | .ok st'' => .ok st''

/-! Reconstructor (cmd/reconstruct/main.go). -/

/-- The gzip decompressor of the reconstructor is the external
compress/gzip layer; it is a parameter mapping blob bytes to the decoded
string, or none when decoding fails. -/
abbrev Decomp := List Nat → Option Str

/-- The index key the reconstructor reads, hardcoded in downloadIndex:
"indexes/" + traceID + ".json". -/
def reconIndexKey (traceID : Str) : Str :=
  "indexes/".data ++ traceID ++ ".json".data

/-- The blob key the reconstructor derives in downloadAndDecompressBlob:
"blobs/" + hash[0:2] + "/" + hash + ".gz". -/
def reconBlobKey (hash : Str) : Str :=
  "blobs/".data ++ hash.take 2 ++ "/".data ++ hash ++ ".gz".data

/-- Failure of downloadIndex: the index object is absent (the GetObject
errors), or its bytes do not unmarshal into a ChunkIndex. -/
inductive IndexErr where
  | notFound
  | badIndex

/-- downloadIndex (reconstruct/main.go): GetObject the index key and
unmarshal the JSON document. -/
def downloadIndex (st : S3State) (traceID : Str) : Except IndexErr ChunkIndex :=
  match slookup (reconIndexKey traceID) st.objects with
  | none => .error .notFound
  | some (.bytes _) => .error .badIndex
  | some (.doc j) =>
    match ChunkIndex.fromJson j with
    | none => .error .badIndex
    | some idx => .ok idx

/-- Failure of downloadAndDecompressBlob: the blob is absent, or its bytes
do not decompress. -/
inductive BlobErr where
  | missing
  | corrupt

/-- downloadAndDecompressBlob (reconstruct/main.go): GetObject the blob
key and gunzip the body.  An object that is not gzip data (here: a stored
document) fails decompression. -/
def downloadAndDecompressBlob (st : S3State) (dec : Decomp) (hash : Str) :
    Except BlobErr Str :=
  match slookup (reconBlobKey hash) st.objects with
  | none => .error .missing
  | some (.doc _) => .error .corrupt
  | some (.bytes bs) =>
    match dec bs with
    | none => .error .corrupt
    | some content => .ok content

/-- Observable outcome of one run of the reconstruct CLI: the printed
identifiers and text on success, or the failure stage; each constructor
records how many blob GetObject calls were made. -/
inductive RecOut where
  | success (traceID spanID : Str) (text : Str) (fetches : Nat)
  | notFound (fetches : Nat)
  | badIndex (fetches : Nat)
  | missingBlob (hash : Str) (fetches : Nat)
  | corruptBlob (hash : Str) (fetches : Nat)
  | panicked (fetches : Nat)

/-- Whether the run ended in a Go runtime panic (out-of-bounds slice). -/
def RecOut.isPanic : RecOut → Bool
  | .panicked _ => true
  | _ => false

/-- The exit code of the process: log.Fatalf exits with 1 on every
failure path; printing the reconstruction exits with 0.  A panic also
terminates with a nonzero code. -/
def RecOut.exitCode : RecOut → Nat
  | .success _ _ _ _ => 0
  | _ => 1

/-- The number of blob GetObject calls the run performed. -/
def RecOut.fetches : RecOut → Nat
  | .success _ _ _ f => f
  | .notFound f => f
  | .badIndex f => f
  | .missingBlob _ f => f
  | .corruptBlob _ f => f
  | .panicked f => f

/-- The blob loop of main (reconstruct/main.go, lines 71-84).  Before each
fetch the progress log slices hash[:12], which panics when the digest
string from the index is shorter than 12 characters.  Decompressed chunks
are appended with a hardcoded "\n" between adjacent chunks (i counts the
chunks already appended). -/
def reconLoop (st : S3State) (dec : Decomp) (tid sid : Str) :
    List Str → Nat → Str → Nat → RecOut
  | [], _, acc, fetches => .success tid sid acc fetches
  | hash :: rest, i, acc, fetches =>
    if hash.length < 12 then .panicked fetches
    else
      match downloadAndDecompressBlob st dec hash with
      | .error .missing => .missingBlob hash (fetches + 1)
      | .error .corrupt => .corruptBlob hash (fetches + 1)
      | .ok content =>
        reconLoop st dec tid sid rest (i + 1)
          (acc ++ (if 0 < i then nl else []) ++ content) (fetches + 1)

/-- main (reconstruct/main.go): fetch and parse the index for the trace
identifier, then fetch, decompress and concatenate every referenced blob
in index order.  The printed identifiers come from the fetched index. -/
def reconstructMain (st : S3State) (traceID : Str) (dec : Decomp) : RecOut :=
  match downloadIndex st traceID with
  | .error .notFound => .notFound 0
  | .error .badIndex => .badIndex 0
  | .ok idx => reconLoop st dec idx.traceID idx.spanID idx.hashes 0 [] 0

/-! Content extractor (internal/worker/otlp_parser.go). -/

/-- An OTLP attribute value.  Only the string field participates in
extraction; the numeric and boolean variants of the Go ValueUnion are
never read by the modelled functions and are omitted. -/
structure ValueUnion where
  stringValue : Str

/-- An OTLP attribute. -/
structure OAttr where
  key : Str
  value : ValueUnion

/-- An OTLP span event. -/
structure OEvent where
  name : Str
  attributes : List OAttr

/-- An OTLP span, with the fields the extractor reads. -/
structure OSpan where
  traceId : Str
  spanId : Str
  attributes : List OAttr
  events : List OEvent

/-- One scopeSpans entry. -/
structure ScopeSpan where
  spans : List OSpan

/-- One resourceSpans entry. -/
structure ResourceSpan where
  scopeSpans : List ScopeSpan

/-- A decoded OTLP payload. -/
structure OTLPData where
  resourceSpans : List ResourceSpan

/-- strings.Contains(s, sub). -/
def containsStr (s sub : Str) : Bool :=
  (findSep sub s).isSome

/-- The fragments extractContentFromSpan collects, in encounter order:
the body attribute of llm.request / llm.response events first, then the
input.value / output.value attributes and every attribute whose key
contains "message.content", all only when the string value is non-empty. -/
def extractParts (span : OSpan) : List Str :=
  (span.events.flatMap fun event =>
    if event.name = "llm.request".data ∨ event.name = "llm.response".data then
      event.attributes.filterMap fun attr =>
        if attr.key = "body".data ∧ attr.value.stringValue ≠ [] then
          some attr.value.stringValue
        else none
    else []) ++
  span.attributes.flatMap fun attr =>
    (if (attr.key = "input.value".data ∨ attr.key = "output.value".data) ∧
        attr.value.stringValue ≠ [] then [attr.value.stringValue] else []) ++
    (if containsStr attr.key ("message.content".data) ∧ attr.value.stringValue ≠ [] then
      [attr.value.stringValue] else [])

/-- extractContentFromSpan (otlp_parser.go): the collected fragments
joined with newlines. -/
def extractContentFromSpan (span : OSpan) : Str :=
  List.intercalate nl (extractParts span)

/-- The extraction loops of ParseOTLPFile (otlp_parser.go, lines 76-93):
walk every span of the decoded payload in order and emit a tuple exactly
when the extracted content is non-empty.  The gzip and JSON decoding that
produce the OTLPData are the external layers in front of these loops. -/
def ParseOTLPFile (data : OTLPData) : List ExtractedContent :=
  data.resourceSpans.flatMap fun rs =>
    rs.scopeSpans.flatMap fun ss =>
      ss.spans.flatMap fun span =>
        let content := extractContentFromSpan span
        if content = [] then [] else [⟨span.traceId, span.spanId, content⟩]

/-- All spans of a payload, in the order the extraction loops visit them. -/
def spansOf (data : OTLPData) : List OSpan :=
  (data.resourceSpans.flatMap fun rs => rs.scopeSpans).flatMap fun ss => ss.spans

/-! Concrete instantiations used to exercise the model: a hash function
satisfying the BLAKE3 interface contract and a compression codec pair. -/

/-- Whether a character is a lowercase hexadecimal digit. -/
def isLowerHexB (c : Char) : Bool :=
  ("0123456789abcdef".data).contains c

/-- A concrete stand-in satisfying the 32-byte digest contract of
blake3.Sum256: the input bytes padded with zeros and truncated to 32. -/
def hTest : HashFn :=
  fun bs => ((bs ++ List.replicate 32 0).take 32).map (fun b => b % 256)

/-- A concrete stand-in for the compression codec: the character codes. -/
def cComp : Str → List Nat := fun c => c.map Char.toNat

/-- The matching decompressor: decode the character codes. -/
def cDec : Decomp := fun bs => some (bs.map Char.ofNat)

/-- A configuration whose chunk separator is "|" instead of the default
newline (CHUNK_SEPARATOR is configurable through the environment). -/
def cCfg : Config :=
  { chunkSeparator := "|".data, blobsPath := "blobs/".data, indexesPath := "indexes/".data }

/-- A span whose content chunks, under separator "|", into a and b. -/
def cContent : ExtractedContent := ⟨"T1".data, "S1".data, "a|b".data⟩

/-- The store pipeline run on that span against an empty bucket. -/
def cRun : PResult := processSpanContent cCfg hTest cComp cContent emptyS3

/-- A bucket holding an index for trace T1 over the digests of chunks c1,
c2, c3, each blob stored as the compression of its chunk. -/
def w1Store : S3State :=
  { objects :=
      [(reconIndexKey ("T1".data),
        .doc (ChunkIndex.toJson ⟨"T1".data, "S1".data,
          [hashChunk hTest ("c1".data), hashChunk hTest ("c2".data),
           hashChunk hTest ("c3".data)]⟩)),
       (reconBlobKey (hashChunk hTest ("c1".data)), .bytes (cComp ("c1".data))),
       (reconBlobKey (hashChunk hTest ("c2".data)), .bytes (cComp ("c2".data))),
       (reconBlobKey (hashChunk hTest ("c3".data)), .bytes (cComp ("c3".data)))],
    headFail := [], putFail := [], blobPuts := 0 }

/-- A span with two chunks under the default separator. -/
def c3Content : ExtractedContent := ⟨"T1".data, "S1".data, "a\nb".data⟩

/-- A bucket where the HeadObject call for the blob key of chunk a fails
with an error other than NotFound. -/
def c3St : S3State :=
  { objects := [],
    headFail := [getBlobKey defaultConfig (hashChunk hTest ("a".data))],
    putFail := [], blobPuts := 0 }

/-- A span whose content has a blank segment between two chunks. -/
def w7content : ExtractedContent := ⟨"T7".data, "S7".data, "hello\n\nworld".data⟩

/-- The store pipeline run on that span against an empty bucket. -/
def w7run : PResult := processSpanContent defaultConfig hTest cComp w7content emptyS3

/-- A bucket whose stored index for trace TS lists a 3-character string
in hashes, shorter than the 12 characters the reconstructor slices. -/
def shortIdxStore : S3State :=
  { objects :=
      [(reconIndexKey ("TS".data),
        .doc (ChunkIndex.toJson ⟨"TS".data, "SS".data, ["abc".data]⟩))],
    headFail := [], putFail := [], blobPuts := 0 }

/-- A bucket whose stored index for trace TA lists one full 64-character
digest. -/
def g10Store : S3State :=
  { objects :=
      [(reconIndexKey ("TA".data),
        .doc (ChunkIndex.toJson ⟨"TA".data, "SA".data, [hashChunk hTest ("x".data)]⟩))],
    headFail := [], putFail := [], blobPuts := 0 }

/-- A bucket that already holds the blob for chunk a, as left by a first
successful store of that chunk. -/
def w2StP : S3State :=
  { objects := [(getBlobKey defaultConfig (hashChunk hTest ("a".data)),
      .bytes (cComp ("a".data)))],
    headFail := [], putFail := [], blobPuts := 1 }

/-- Following the words of the claimed rejoin property: the original text
with its whitespace-only segments removed (and with them any leading or
trailing separator), other segments untouched.  Used to compare the
claimed description against what chunkContent actually produces. -/
def specRemoveBlanks (sep t : Str) : Str :=
  List.intercalate sep ((splitOnSep sep t).filter fun seg => !(trimSpace seg).isEmpty)

/-! Helper lemmas. -/

theorem head?_dropWhile_false {p : Char → Bool} {l : Str} {c : Char}
    (h : (l.dropWhile p).head? = some c) : p c = false := by
  induction l with
  | nil => simp [List.dropWhile] at h
  | cons a rest ih =>
    rw [List.dropWhile_cons] at h
    by_cases hp : p a
    · simp [hp] at h
      exact ih h
    · simp [hp] at h
      subst h
      simpa using hp

theorem dropWhile_of_head? {p : Char → Bool} {l : Str}
    (h : ∀ c, l.head? = some c → p c = false) : l.dropWhile p = l := by
  cases l with
  | nil => rfl
  | cons a rest =>
    have := h a rfl
    simp [List.dropWhile, this]

theorem trimSpace_idem (s : Str) : trimSpace (trimSpace s) = trimSpace s := by
  unfold trimSpace
  set u := s.dropWhile goIsSpace with hu
  set v := u.reverse.dropWhile goIsSpace with hv
  have hdrop : v.reverse.dropWhile goIsSpace = v.reverse := by
    apply dropWhile_of_head?
    intro c hc
    have hpre : v.reverse <+: u := by
      have hsuf : v <:+ u.reverse := by rw [hv]; exact List.dropWhile_suffix _
      have := List.reverse_prefix.mpr (by simpa using hsuf)
      simpa using this
    obtain ⟨w, hw⟩ := hpre
    have hne : v.reverse ≠ [] := by
      intro hnil
      rw [hnil] at hc
      simp at hc
    have huc : u.head? = some c := by
      rw [← hw, List.head?_append]
      rw [hc]
      rfl
    have hus : (s.dropWhile goIsSpace).head? = some c := by rw [← hu]; exact huc
    exact head?_dropWhile_false hus
  rw [hdrop, List.reverse_reverse, hv, List.dropWhile_idempotent]

theorem findSep_some {sep : Str} (hsep : sep ≠ []) :
    ∀ {s b a : Str}, findSep sep s = some (b, a) → b ++ sep ++ a = s := by
  intro s
  induction s with
  | nil =>
    intro b a h
    simp [findSep, hsep] at h
  | cons c rest ih =>
    intro b a h
    rw [findSep] at h
    by_cases hp : sep.isPrefixOf (c :: rest)
    · rw [if_pos hp] at h
      obtain ⟨hb, ha⟩ := by simpa using h
      have hpre : sep <+: (c :: rest) := (List.isPrefixOf_iff_prefix).1 hp
      obtain ⟨w, hw⟩ := hpre
      subst hb
      subst ha
      rw [← hw, List.drop_left, List.nil_append]
    · rw [if_neg hp] at h
      cases heq : findSep sep rest with
      | none => rw [heq] at h; simp at h
      | some p =>
        rw [heq] at h
        obtain ⟨b', a'⟩ := p
        simp at h
        obtain ⟨hb, ha⟩ := h
        subst hb
        subst ha
        have := ih heq
        simp [← this]

theorem findSep_shorter {sep : Str} (hsep : sep ≠ []) {s b a : Str}
    (h : findSep sep s = some (b, a)) : a.length < s.length := by
  have := findSep_some hsep h
  have hlen : b.length + sep.length + a.length = s.length := by
    rw [← this]; simp [Nat.add_assoc]
  have hpos : 0 < sep.length := List.length_pos.2 hsep
  omega

theorem splitGo_ne_nil (sep : Str) (fuel : Nat) (s : Str) : splitGo sep fuel s ≠ [] := by
  cases fuel with
  | zero => simp [splitGo]
  | succ n =>
    rw [splitGo]
    cases findSep sep s with
    | none => simp
    | some p => simp

theorem intercalate_cons_ne {sep x : Str} {t : List Str} (h : t ≠ []) :
    List.intercalate sep (x :: t) = x ++ sep ++ List.intercalate sep t := by
  obtain ⟨y, t', rfl⟩ := List.exists_cons_of_ne_nil h
  simp [List.intercalate, List.intersperse]

theorem splitGo_intercalate {sep : Str} (hsep : sep ≠ []) :
    ∀ (fuel : Nat) (s : Str), s.length ≤ fuel →
      List.intercalate sep (splitGo sep fuel s) = s := by
  intro fuel
  induction fuel with
  | zero =>
    intro s _
    simp [splitGo, List.intercalate]
  | succ n ih =>
    intro s hs
    rw [splitGo]
    cases heq : findSep sep s with
    | none => simp [List.intercalate]
    | some p =>
      obtain ⟨b, a⟩ := p
      have hwf : a.length < s.length := findSep_shorter hsep heq
      rw [intercalate_cons_ne (splitGo_ne_nil sep n a)]
      rw [ih a (by omega)]
      exact findSep_some hsep heq

theorem splitOnSep_intercalate {sep : Str} (hsep : sep ≠ []) (s : Str) :
    List.intercalate sep (splitOnSep sep s) = s := by
  rw [splitOnSep, if_neg hsep]
  exact splitGo_intercalate hsep s.length s (le_refl _)

theorem chunkContent_mem {sep t c : Str} (h : c ∈ chunkContent sep t) :
    trimSpace c = c ∧ c ≠ [] := by
  rw [chunkContent] at h
  by_cases ht : t = []
  · simp [ht] at h
  · rw [if_neg ht] at h
    obtain ⟨seg, _, hseg⟩ := List.mem_filterMap.1 h
    by_cases hts : trimSpace seg = []
    · simp [hts] at hseg
    · simp [hts] at hseg
      subst hseg
      exact ⟨trimSpace_idem seg, hts⟩

theorem filterMap_trim_eq_self {l : List Str}
    (h : ∀ seg ∈ l, trimSpace seg = seg ∧ seg ≠ []) :
    (l.filterMap fun c => let t := trimSpace c; if t = [] then none else some t) = l := by
  induction l with
  | nil => rfl
  | cons seg rest ih =>
    obtain ⟨h1, h2⟩ := h seg (List.mem_cons_self _ _)
    rw [List.filterMap_cons]
    simp only [h1, if_neg h2]
    rw [ih fun s hs => h s (List.mem_cons_of_mem _ hs)]

theorem filterMap_trim_eq_map_filter (l : List Str) :
    (l.filterMap fun c => let t := trimSpace c; if t = [] then none else some t) =
      (l.map trimSpace).filter fun x => !x.isEmpty := by
  induction l with
  | nil => rfl
  | cons seg rest ih =>
    rw [List.filterMap_cons, List.map_cons, List.filter_cons]
    by_cases hts : trimSpace seg = []
    · simp [hts, ih]
    · have : (trimSpace seg).isEmpty = false := by
        cases heq : trimSpace seg with
        | nil => exact absurd heq hts
        | cons a b => rfl
      simp [hts, this, ih]

theorem hexEncode_length (bs : List Nat) : (hexEncode bs).length = 2 * bs.length := by
  induction bs with
  | nil => rfl
  | cons b rest ih =>
    simp [hexEncode] at ih ⊢
    omega

theorem hexDigit_lower_hex : ∀ n : Nat, n < 16 → isLowerHexB (hexDigit n) = true := by
  decide

theorem hexEncode_all_hex {bs : List Nat} (h : ∀ b ∈ bs, b < 256) :
    (hexEncode bs).all isLowerHexB = true := by
  rw [List.all_eq_true]
  intro c hc
  obtain ⟨b, hb, hcb⟩ := List.mem_flatMap.1 hc
  have hb256 := h b hb
  have h1 : b / 16 < 16 := by omega
  have h2 : b % 16 < 16 := Nat.mod_lt _ (by omega)
  rcases by simpa using hcb with h | h <;> subst h
  · exact hexDigit_lower_hex _ h1
  · exact hexDigit_lower_hex _ h2

theorem hashChunk_length {hf : HashFn} (hok : HashOK hf) (c : Str) :
    (hashChunk hf c).length = 64 := by
  rw [hashChunk, hexEncode_length, (hok (strBytes c)).1]

theorem hashOK_hTest : HashOK hTest := by
  intro bs
  constructor
  · simp only [hTest, List.length_map, List.length_take, List.length_append,
      List.length_replicate]
    omega
  · intro b hb
    simp only [hTest, List.mem_map] at hb
    obtain ⟨x, _, hx⟩ := hb
    omega

theorem jStrList_map (hs : List Str) : jStrList (hs.map Json.str) = some hs := by
  induction hs with
  | nil => rfl
  | cons h t ih => simp [jStrList, ih]

theorem fromJson_toJson (idx : ChunkIndex) : ChunkIndex.fromJson idx.toJson = some idx := by
  obtain ⟨t, s, hs⟩ := idx
  have e1 : slookup ("trace_id".data)
      [("trace_id".data, Json.str t), ("span_id".data, Json.str s),
       ("hashes".data, Json.arr (hs.map Json.str))] = some (Json.str t) := by
    simp [slookup]
  have e2 : slookup ("span_id".data)
      [("trace_id".data, Json.str t), ("span_id".data, Json.str s),
       ("hashes".data, Json.arr (hs.map Json.str))] = some (Json.str s) := by
    simp [slookup]
  have e3 : slookup ("hashes".data)
      [("trace_id".data, Json.str t), ("span_id".data, Json.str s),
       ("hashes".data, Json.arr (hs.map Json.str))] = some (Json.arr (hs.map Json.str)) := by
    simp [slookup]
  simp only [ChunkIndex.toJson, ChunkIndex.fromJson, jGetStr, jGetStrArr, e1, e2, e3,
    jStrList_map]
  rfl

theorem processChunks_ok_hashes {cfg : Config} {hf : HashFn} {comp : Str → List Nat} :
    ∀ {cs : List Str} {st : S3State} {hs : List Str} {st' : S3State},
      (∀ c ∈ cs, c ≠ []) → processChunks cfg hf comp cs st = .ok hs st' →
      hs = cs.map (hashChunk hf) := by
  intro cs
  induction cs with
  | nil =>
    intro st hs st' _ h
    simp [processChunks] at h
    simp [h.1]
  | cons c rest ih =>
    intro st hs st' hne h
    have hc : c ≠ [] := hne c (List.mem_cons_self _ _)
    have hrest : ∀ x ∈ rest, x ≠ [] := fun x hx => hne x (List.mem_cons_of_mem _ hx)
    rw [processChunks, if_neg hc] at h
    cases hbe : blobExists st (getBlobKey cfg (hashChunk hf c)) with
    | error e => rw [hbe] at h; simp at h
    | ok b =>
      rw [hbe] at h
      cases b with
      | true =>
        simp only at h
        cases hpc : processChunks cfg hf comp rest st with
        | ok hs1 st1 =>
          rw [hpc] at h
          simp at h
          rw [List.map_cons, ← ih hrest hpc, h.1]
        | err e st1 => rw [hpc] at h; simp at h
      | false =>
        simp only at h
        cases hsb : storeBlob st (getBlobKey cfg (hashChunk hf c)) (comp c) with
        | error e => rw [hsb] at h; simp at h
        | ok st1 =>
          rw [hsb] at h
          simp only at h
          cases hpc : processChunks cfg hf comp rest st1 with
          | ok hs1 st2 =>
            rw [hpc] at h
            simp at h
            rw [List.map_cons, ← ih hrest hpc, h.1]
          | err e st2 => rw [hpc] at h; simp at h

theorem extractParts_ne_nil {span : OSpan} : ∀ p ∈ extractParts span, p ≠ [] := by
  intro p hp
  simp only [extractParts, List.mem_append, List.mem_flatMap, List.mem_filterMap] at hp
  rcases hp with ⟨event, _, hmem⟩ | ⟨attr, _, hmem⟩
  · split at hmem
    · obtain ⟨attr, _, hsome⟩ := List.mem_filterMap.1 hmem
      split at hsome
      · rename_i hcond
        obtain rfl := by simpa using hsome
        exact hcond.2
      · simp at hsome
    · simp at hmem
  · rcases hmem with h | h
    · split at h
      · rename_i hcond
        obtain rfl := by simpa using h
        exact hcond.2
      · simp at h
    · split at h
      · rename_i hcond
        obtain rfl := by simpa using h
        exact hcond.2
      · simp at h

theorem intercalate_parts_ne_nil {sep : Str} {parts : List Str} (hne : parts ≠ [])
    (hall : ∀ p ∈ parts, p ≠ []) : List.intercalate sep parts ≠ [] := by
  cases parts with
  | nil => exact absurd rfl hne
  | cons p rest =>
    cases rest with
    | nil =>
      simpa [List.intercalate] using hall p (List.mem_cons_self _ _)
    | cons q t =>
      rw [intercalate_cons_ne (by simp)]
      have hp := hall p (List.mem_cons_self _ _)
      cases p with
      | nil => exact absurd rfl hp
      | cons a l => simp

theorem extractContent_eq_nil_iff (span : OSpan) :
    extractContentFromSpan span = [] ↔ extractParts span = [] := by
  constructor
  · intro h
    by_contra hne
    exact intercalate_parts_ne_nil hne (fun p hp => extractParts_ne_nil p hp) h
  · intro h
    rw [extractContentFromSpan, h]
    simp [List.intercalate]

theorem spans_flatMap_filterMap (l : List OSpan) :
    (l.flatMap fun span =>
      let content := extractContentFromSpan span
      if content = [] then [] else [(⟨span.traceId, span.spanId, content⟩ : ExtractedContent)]) =
    l.filterMap fun span =>
      if extractParts span = [] then none
      else some ⟨span.traceId, span.spanId, List.intercalate nl (extractParts span)⟩ := by
  induction l with
  | nil => rfl
  | cons span rest ih =>
    rw [List.flatMap_cons, List.filterMap_cons]
    by_cases hp : extractParts span = []
    · have hc : extractContentFromSpan span = [] := (extractContent_eq_nil_iff span).2 hp
      simp only [hc, hp, if_pos rfl]
      simpa using ih
    · have hc : extractContentFromSpan span ≠ [] := fun h =>
        hp ((extractContent_eq_nil_iff span).1 h)
      simp only [if_neg hp, if_neg hc]
      rw [ih]
      rfl

theorem reconLoop_no_panic {st : S3State} {dec : Decomp} {tid sid : Str} :
    ∀ {hashes : List Str} (i : Nat) (acc : Str) (f : Nat),
      (∀ hs ∈ hashes, 12 ≤ hs.length) →
      (reconLoop st dec tid sid hashes i acc f).isPanic = false := by
  intro hashes
  induction hashes with
  | nil => intro i acc f _; rfl
  | cons h rest ih =>
    intro i acc f hlen
    rw [reconLoop, if_neg (by have := hlen h (List.mem_cons_self _ _); omega)]
    cases downloadAndDecompressBlob st dec h with
    | error e => cases e <;> rfl
    | ok content => exact ih _ _ _ fun x hx => hlen x (List.mem_cons_of_mem _ hx)

/-! Claim theorems. -/

/-- Claim C4 (amended): chunking an input and rejoining the chunks with
the separator yields the intercalation of the per-segment-trimmed,
non-blank segments of the input; every chunk is trimmed and non-empty;
when every segment of the split is already trimmed and non-empty the
rejoin reproduces the input exactly; and empty input yields the empty
chunk sequence. -/
theorem claim_C4_thm (sep t : Str) (hsep : sep ≠ []) :
    chunkContent sep [] = [] ∧
    ((chunkContent sep t).all fun c => (trimSpace c == c) && !c.isEmpty) = true ∧
    (((splitOnSep sep t).all fun seg => (trimSpace seg == seg) && !seg.isEmpty) = true →
      List.intercalate sep (chunkContent sep t) = t) ∧
    List.intercalate sep (chunkContent sep t) =
      List.intercalate sep (((splitOnSep sep t).map trimSpace).filter fun x => !x.isEmpty) := by
  refine ⟨rfl, ?_, ?_, ?_⟩
  · rw [List.all_eq_true]
    intro c hc
    obtain ⟨h1, h2⟩ := chunkContent_mem hc
    rw [h1]
    cases c with
    | nil => exact absurd rfl h2
    | cons a l => simp
  · intro hall
    rw [List.all_eq_true] at hall
    have hsegs : ∀ seg ∈ splitOnSep sep t, trimSpace seg = seg ∧ seg ≠ [] := by
      intro seg hseg
      have := hall seg hseg
      simp only [Bool.and_eq_true, beq_iff_eq, Bool.not_eq_true'] at this
      refine ⟨this.1, ?_⟩
      intro hnil
      rw [hnil] at this
      simp at this
    by_cases ht : t = []
    · exfalso
      have : ([] : Str) ∈ splitOnSep sep t := by
        rw [ht, splitOnSep, if_neg hsep]
        simp [splitGo]
      exact (hsegs [] this).2 rfl
    · rw [chunkContent, if_neg ht, filterMap_trim_eq_self hsegs, splitOnSep_intercalate hsep]
  · rw [chunkContent]
    by_cases ht : t = []
    · rw [if_pos ht, ht, splitOnSep, if_neg hsep]
      simp [splitGo, trimSpace]
    · rw [if_neg ht, filterMap_trim_eq_map_filter]

/-- Claim C4 counterexample: for t = " a" and separator newline, the code
rejoins to "a", while the text with only its whitespace-only segments
removed is " a" itself: chunking also trims whitespace at segment edges,
which the claimed description does not allow. -/
theorem claim_C4_cx :
    chunkContent ("\n".data) (" a".data) = ["a".data] ∧
    List.intercalate ("\n".data) (chunkContent ("\n".data) (" a".data)) = "a".data ∧
    specRemoveBlanks ("\n".data) (" a".data) = " a".data ∧
    ("a".data : Str) ≠ " a".data :=
  ⟨rfl, rfl, rfl, by decide⟩

/-- Claim C4 witness: the amended statement evaluated at separator
newline and input "x \n\n y". -/
theorem claim_C4_wit :
    chunkContent ("\n".data) [] = [] ∧
    ((chunkContent ("\n".data) ("x \n\n y".data)).all fun c =>
      (trimSpace c == c) && !c.isEmpty) = true ∧
    (((splitOnSep ("\n".data) ("x \n\n y".data)).all fun seg =>
        (trimSpace seg == seg) && !seg.isEmpty) = true →
      List.intercalate ("\n".data) (chunkContent ("\n".data) ("x \n\n y".data)) =
        "x \n\n y".data) ∧
    List.intercalate ("\n".data) (chunkContent ("\n".data) ("x \n\n y".data)) =
      List.intercalate ("\n".data)
        (((splitOnSep ("\n".data) ("x \n\n y".data)).map trimSpace).filter fun x =>
          !x.isEmpty) :=
  claim_C4_thm ("\n".data) ("x \n\n y".data) (by decide)

/-- Claim C5: for a hash function meeting the 32-byte digest contract of
blake3.Sum256, every digest rendered by hashChunk is a 64-character
string of lowercase hexadecimal digits, and identical chunk content
yields identical digests. -/
theorem claim_C5_thm (hf : HashFn) (hok : HashOK hf) (c1 c2 : Str) :
    (hashChunk hf c1).length = 64 ∧
    (hashChunk hf c1).all isLowerHexB = true ∧
    (c1 = c2 → hashChunk hf c1 = hashChunk hf c2) :=
  ⟨hashChunk_length hok c1, hexEncode_all_hex (hok (strBytes c1)).2, fun h => by rw [h]⟩

/-- Claim C5 witness: evaluated at the concrete test hash and the chunk
"ab". -/
theorem claim_C5_wit :
    (hashChunk hTest ("ab".data)).length = 64 ∧
    (hashChunk hTest ("ab".data)).all isLowerHexB = true ∧
    ("ab".data = ("ab".data : Str) → hashChunk hTest ("ab".data) = hashChunk hTest ("ab".data)) :=
  claim_C5_thm hTest hashOK_hTest ("ab".data) ("ab".data)

/-- Claim C6: with the default blobs prefix (BLOBS_PATH "blobs/"), the
writer key function getBlobKey and the reconstructor key derivation agree
on every digest of length at least two (the domain on which the Go slice
hash[0:2] is defined), and both equal blobs/{digest[0:2]}/{digest}.gz. -/
theorem claim_C6_thm (cfg : Config) (d : Str) (hp : cfg.blobsPath = "blobs/".data)
    (_hd : 2 ≤ d.length) :
    getBlobKey cfg d = reconBlobKey d ∧
    getBlobKey cfg d = "blobs/".data ++ d.take 2 ++ "/".data ++ d ++ ".gz".data := by
  unfold getBlobKey reconBlobKey
  rw [hp]
  exact ⟨rfl, rfl⟩

/-- Claim C6 witness: evaluated at the default configuration and a
concrete 64-character digest. -/
theorem claim_C6_wit :
    getBlobKey defaultConfig (hashChunk hTest ("x".data)) =
      reconBlobKey (hashChunk hTest ("x".data)) ∧
    getBlobKey defaultConfig (hashChunk hTest ("x".data)) =
      "blobs/".data ++ (hashChunk hTest ("x".data)).take 2 ++ "/".data ++
        hashChunk hTest ("x".data) ++ ".gz".data :=
  claim_C6_thm defaultConfig (hashChunk hTest ("x".data)) rfl (by decide)

/-- Claim C8: the extraction loops emit one tuple per span whose fragment
list is non-empty, the content being the fragments joined by newlines in
encounter order, and no emitted tuple has empty content. -/
theorem claim_C8_thm (data : OTLPData) :
    ParseOTLPFile data = ((spansOf data).filterMap fun span =>
      if extractParts span = [] then none
      else some ⟨span.traceId, span.spanId, List.intercalate nl (extractParts span)⟩) ∧
    ((ParseOTLPFile data).all fun e => !e.content.isEmpty) = true := by
  have hmain : ParseOTLPFile data = (spansOf data).filterMap fun span =>
      if extractParts span = [] then none
      else some ⟨span.traceId, span.spanId, List.intercalate nl (extractParts span)⟩ := by
    rw [ParseOTLPFile, spansOf, List.filterMap_flatMap, List.flatMap_assoc]
    congr 1
    funext rs
    congr 1
    funext ss
    exact spans_flatMap_filterMap ss.spans
  refine ⟨hmain, ?_⟩
  rw [hmain, List.all_eq_true]
  intro e he
  obtain ⟨span, _, hsome⟩ := List.mem_filterMap.1 he
  by_cases hp : extractParts span = []
  · simp [hp] at hsome
  · rw [if_neg hp] at hsome
    obtain rfl := by simpa using hsome
    have : List.intercalate nl (extractParts span) ≠ [] :=
      intercalate_parts_ne_nil hp fun p hp' => extractParts_ne_nil p hp'
    cases heq : List.intercalate nl (extractParts span) with
    | nil => exact absurd heq this
    | cons a l => simp [heq]

/-- Claim C9: when no index object is stored for the trace identifier,
reconstruction reports the index as not found, exits nonzero, and
performs zero blob fetches. -/
theorem claim_C9_thm (st : S3State) (tid : Str) (dec : Decomp)
    (h : slookup (reconIndexKey tid) st.objects = none) :
    reconstructMain st tid dec = .notFound 0 ∧
    (reconstructMain st tid dec).exitCode = 1 ∧
    (reconstructMain st tid dec).fetches = 0 := by
  have hdi : downloadIndex st tid = .error .notFound := by
    unfold downloadIndex
    rw [h]
  have hm : reconstructMain st tid dec = .notFound 0 := by
    unfold reconstructMain
    rw [hdi]
  exact ⟨hm, by rw [hm]; rfl, by rw [hm]; rfl⟩

/-- Claim C9 witness: evaluated against the empty bucket. -/
theorem claim_C9_wit :
    reconstructMain emptyS3 ("T9".data) cDec = .notFound 0 ∧
    (reconstructMain emptyS3 ("T9".data) cDec).exitCode = 1 ∧
    (reconstructMain emptyS3 ("T9".data) cDec).fetches = 0 :=
  claim_C9_thm emptyS3 ("T9".data) cDec rfl

/-- Claim C10: when every digest string of the fetched index has at least
12 characters the reconstructor performs no out-of-bounds slice (no
panic); every writer-produced digest has 64 characters and so satisfies
the precondition; and an index holding a 3-character string makes the run
panic at the hash[:12] slice before any blob fetch. -/
theorem claim_C10_thm (st : S3State) (tid : Str) (dec : Decomp) (idx : ChunkIndex)
    (hf : HashFn) (c : Str) (hok : HashOK hf)
    (hidx : downloadIndex st tid = .ok idx)
    (hlen : ∀ hs ∈ idx.hashes, 12 ≤ hs.length) :
    (reconstructMain st tid dec).isPanic = false ∧
    12 ≤ (hashChunk hf c).length ∧
    reconstructMain shortIdxStore ("TS".data) dec = .panicked 0 := by
  refine ⟨?_, ?_, ?_⟩
  · have hm : reconstructMain st tid dec =
        reconLoop st dec idx.traceID idx.spanID idx.hashes 0 [] 0 := by
      unfold reconstructMain
      rw [hidx]
    rw [hm]
    exact reconLoop_no_panic 0 [] 0 hlen
  · rw [hashChunk_length hok]
    omega
  · rfl

/-- Claim C10 witness: evaluated against a bucket whose index holds one
full 64-character digest. -/
theorem claim_C10_wit :
    (reconstructMain g10Store ("TA".data) cDec).isPanic = false ∧
    12 ≤ (hashChunk hTest ("q".data)).length ∧
    reconstructMain shortIdxStore ("TS".data) cDec = .panicked 0 :=
  claim_C10_thm g10Store ("TA".data) cDec
    ⟨"TA".data, "SA".data, [hashChunk hTest ("x".data)]⟩ hTest ("q".data)
    hashOK_hTest rfl (by decide)

/-- Claim C2: storing a chunk against a store lacking its blob performs
exactly one blob write and returns the digest; immediately storing the
same chunk again finds the blob present, performs no further write, and
returns the same digest; and against any store where the existence check
reports the blob present, no put occurs at all. -/
theorem claim_C2_thm (cfg : Config) (hf : HashFn) (comp : Str → List Nat) (c : Str)
    (st stP : S3State)
    (h1 : c ≠ [])
    (h2 : getBlobKey cfg (hashChunk hf c) ∉ st.headFail)
    (h3 : getBlobKey cfg (hashChunk hf c) ∉ st.putFail)
    (h4 : slookup (getBlobKey cfg (hashChunk hf c)) st.objects = none)
    (h5 : getBlobKey cfg (hashChunk hf c) ∉ stP.headFail)
    (h6 : (slookup (getBlobKey cfg (hashChunk hf c)) stP.objects).isSome = true) :
    processChunks cfg hf comp [c] st =
      .ok [hashChunk hf c] (ChunksOut.state (processChunks cfg hf comp [c] st)) ∧
    (ChunksOut.state (processChunks cfg hf comp [c] st)).blobPuts = st.blobPuts + 1 ∧
    processChunks cfg hf comp [c]
        (ChunksOut.state (processChunks cfg hf comp [c] st)) =
      .ok [hashChunk hf c] (ChunksOut.state (processChunks cfg hf comp [c] st)) ∧
    processChunks cfg hf comp [c] stP = .ok [hashChunk hf c] stP := by
  have hbe : blobExists st (getBlobKey cfg (hashChunk hf c)) = .ok false := by
    rw [blobExists, if_neg h2, h4]
    rfl
  have hsb : storeBlob st (getBlobKey cfg (hashChunk hf c)) (comp c) =
      .ok { st with
        objects := (getBlobKey cfg (hashChunk hf c), ObjVal.bytes (comp c)) :: st.objects,
        blobPuts := st.blobPuts + 1 } := by
    rw [storeBlob, if_neg h3]
  have hrun : processChunks cfg hf comp [c] st =
      .ok [hashChunk hf c] { st with
        objects := (getBlobKey cfg (hashChunk hf c), ObjVal.bytes (comp c)) :: st.objects,
        blobPuts := st.blobPuts + 1 } := by
    simp only [processChunks, if_neg h1, hbe, hsb]
  have hbe2 : blobExists { st with
        objects := (getBlobKey cfg (hashChunk hf c), ObjVal.bytes (comp c)) :: st.objects,
        blobPuts := st.blobPuts + 1 } (getBlobKey cfg (hashChunk hf c)) = .ok true := by
    rw [blobExists, if_neg h2]
    simp [slookup]
  have hbeP : blobExists stP (getBlobKey cfg (hashChunk hf c)) = .ok true := by
    rw [blobExists, if_neg h5, h6]
  refine ⟨?_, ?_, ?_, ?_⟩
  · rw [hrun]
    rfl
  · rw [hrun]
    rfl
  · rw [hrun]
    simp only [ChunksOut.state, processChunks, if_neg h1, hbe2]
  · simp only [processChunks, if_neg h1, hbeP]

/-- Claim C2 witness: chunk "a" stored twice against an initially empty
bucket, and once against a bucket already holding its blob. -/
theorem claim_C2_wit :
    processChunks defaultConfig hTest cComp ["a".data] emptyS3 =
      .ok [hashChunk hTest ("a".data)]
        (ChunksOut.state (processChunks defaultConfig hTest cComp ["a".data] emptyS3)) ∧
    (ChunksOut.state (processChunks defaultConfig hTest cComp ["a".data] emptyS3)).blobPuts =
      emptyS3.blobPuts + 1 ∧
    processChunks defaultConfig hTest cComp ["a".data]
        (ChunksOut.state (processChunks defaultConfig hTest cComp ["a".data] emptyS3)) =
      .ok [hashChunk hTest ("a".data)]
        (ChunksOut.state (processChunks defaultConfig hTest cComp ["a".data] emptyS3)) ∧
    processChunks defaultConfig hTest cComp ["a".data] w2StP =
      .ok [hashChunk hTest ("a".data)] w2StP :=
  claim_C2_thm defaultConfig hTest cComp ("a".data) emptyS3 w2StP (by decide) (by decide)
    (by decide) rfl (by decide) rfl

/-- Claim C3 (amended): a failed existence check, or a failed blob write,
for a chunk aborts the processing of the span at that chunk: the function
returns the error with the store state unchanged, so the sibling chunks
after it are never processed and no index is written for the span.
Failure isolation exists only at span level, in ProcessFile. -/
theorem claim_C3_thm (cfg : Config) (hf : HashFn) (comp : Str → List Nat)
    (c : Str) (rest : List Str) (st : S3State) (content : ExtractedContent)
    (h1 : c ≠ [])
    (hcc : chunkContent cfg.chunkSeparator content.content = c :: rest) :
    (getBlobKey cfg (hashChunk hf c) ∈ st.headFail →
      processChunks cfg hf comp (c :: rest) st = .err .headCheck st ∧
      processSpanContent cfg hf comp content st = .err .headCheck st) ∧
    (getBlobKey cfg (hashChunk hf c) ∉ st.headFail →
      slookup (getBlobKey cfg (hashChunk hf c)) st.objects = none →
      getBlobKey cfg (hashChunk hf c) ∈ st.putFail →
      processChunks cfg hf comp (c :: rest) st = .err .putBlob st ∧
      processSpanContent cfg hf comp content st = .err .putBlob st) := by
  constructor
  · intro hin
    have hbe : blobExists st (getBlobKey cfg (hashChunk hf c)) = .error () := by
      rw [blobExists, if_pos hin]
    have hpc : processChunks cfg hf comp (c :: rest) st = .err .headCheck st := by
      simp only [processChunks, if_neg h1, hbe]
    refine ⟨hpc, ?_⟩
    simp only [processSpanContent, hcc]
    rw [if_neg (by simp), hpc]
  · intro hnin hnone hput
    have hbe : blobExists st (getBlobKey cfg (hashChunk hf c)) = .ok false := by
      rw [blobExists, if_neg hnin, hnone]
      rfl
    have hsb : storeBlob st (getBlobKey cfg (hashChunk hf c)) (comp c) = .error () := by
      rw [storeBlob, if_pos hput]
    have hpc : processChunks cfg hf comp (c :: rest) st = .err .putBlob st := by
      simp only [processChunks, if_neg h1, hbe, hsb]
    refine ⟨hpc, ?_⟩
    simp only [processSpanContent, hcc]
    rw [if_neg (by simp), hpc]

/-- Claim C3 counterexample: with the existence check for the first chunk
of span content "a\nb" failing, the span processing returns the head-check
error with the bucket unchanged: the sibling chunk b is never stored, no
digest list survives, and no index is written — the claimed
continue-with-siblings behavior does not occur. -/
theorem claim_C3_cx :
    processSpanContent defaultConfig hTest cComp c3Content c3St = .err .headCheck c3St ∧
    slookup (indexKey defaultConfig ("T1".data)) c3St.objects = none ∧
    slookup (getBlobKey defaultConfig (hashChunk hTest ("b".data))) c3St.objects = none ∧
    c3St.blobPuts = 0 :=
  ⟨rfl, rfl, rfl, rfl⟩

/-- Claim C3 witness: the amended abort behavior evaluated at the failing
first chunk of the concrete span. -/
theorem claim_C3_wit :
    processChunks defaultConfig hTest cComp ("a".data :: ["b".data]) c3St =
      .err .headCheck c3St ∧
    processSpanContent defaultConfig hTest cComp c3Content c3St = .err .headCheck c3St :=
  (claim_C3_thm defaultConfig hTest cComp ("a".data) ["b".data] c3St c3Content
    (by decide) rfl).1 (by decide)

/-- Claim C7: when processSpanContent succeeds, nothing is stored when the
content produced no chunks, and otherwise the index key of the trace holds
a document with exactly the fields trace_id, span_id and hashes, the
hashes being the ordered digests of all chunks; the index key is derived
from the configuration and the trace identifier alone. -/
theorem claim_C7_thm (cfg : Config) (hf : HashFn) (comp : Str → List Nat)
    (content : ExtractedContent) (st st' : S3State)
    (hok : processSpanContent cfg hf comp content st = .ok st') :
    (chunkContent cfg.chunkSeparator content.content = [] → st' = st) ∧
    (chunkContent cfg.chunkSeparator content.content ≠ [] →
      slookup (indexKey cfg content.traceID) st'.objects =
        some (.doc (Json.obj
          [("trace_id".data, .str content.traceID),
           ("span_id".data, .str content.spanID),
           ("hashes".data, .arr (((chunkContent cfg.chunkSeparator content.content).map
             (hashChunk hf)).map Json.str))]))) ∧
    indexKey cfg content.traceID = cfg.indexesPath ++ content.traceID ++ ".json".data := by
  by_cases hc : chunkContent cfg.chunkSeparator content.content = []
  · simp only [processSpanContent, hc, if_pos rfl] at hok
    obtain rfl : st = st' := by simpa using hok
    exact ⟨fun _ => rfl, fun hne => absurd hc hne, rfl⟩
  · refine ⟨fun h => absurd h hc, fun _ => ?_, rfl⟩
    simp only [processSpanContent] at hok
    rw [if_neg hc] at hok
    cases hpc : processChunks cfg hf comp (chunkContent cfg.chunkSeparator content.content) st with
    | err e st1 => rw [hpc] at hok; simp at hok
    | ok hashes st1 =>
      rw [hpc] at hok
      simp only at hok
      have hmap : hashes = (chunkContent cfg.chunkSeparator content.content).map (hashChunk hf) :=
        processChunks_ok_hashes (fun x hx => (chunkContent_mem hx).2) hpc
      have hne2 : hashes ≠ [] := by
        rw [hmap]
        simpa using hc
      rw [if_neg hne2] at hok
      by_cases hin : indexKey cfg content.traceID ∈ st1.putFail
      · rw [storeIndex, if_pos hin] at hok
        simp at hok
      · rw [storeIndex, if_neg hin] at hok
        obtain rfl : ({ st1 with objects := (indexKey cfg content.traceID,
            ObjVal.doc (ChunkIndex.toJson ⟨content.traceID, content.spanID, hashes⟩)) ::
              st1.objects } : S3State) = st' := by
          simpa using hok
        simp only [slookup, if_pos rfl]
        rw [hmap]
        rfl

/-- Claim C7 witness: the pipeline run on the two-chunk span of w7content
against the empty bucket. -/
theorem claim_C7_wit :
    (chunkContent defaultConfig.chunkSeparator w7content.content = [] →
      PResult.state w7run = emptyS3) ∧
    (chunkContent defaultConfig.chunkSeparator w7content.content ≠ [] →
      slookup (indexKey defaultConfig w7content.traceID) (PResult.state w7run).objects =
        some (.doc (Json.obj
          [("trace_id".data, .str w7content.traceID),
           ("span_id".data, .str w7content.spanID),
           ("hashes".data, .arr (((chunkContent defaultConfig.chunkSeparator
             w7content.content).map (hashChunk hTest)).map Json.str))]))) ∧
    indexKey defaultConfig w7content.traceID =
      defaultConfig.indexesPath ++ w7content.traceID ++ ".json".data :=
  claim_C7_thm defaultConfig hTest cComp w7content emptyS3 (PResult.state w7run) rfl

/-- Claim C1 (amended): for an index recording the ordered digests of
chunks c1, c2, c3, each blob stored as the compression of its chunk, the
reconstructor fetches each blob in index order, decompresses it, and
joins the results with a newline — the separator hardcoded in
cmd/reconstruct/main.go — yielding c1 ++ "\n" ++ c2 ++ "\n" ++ c3. -/
theorem claim_C1_thm (st : S3State) (tid sid c1 c2 c3 : Str) (hf : HashFn)
    (comp : Str → List Nat) (dec : Decomp)
    (hok : HashOK hf)
    (hidx : slookup (reconIndexKey tid) st.objects =
      some (.doc (ChunkIndex.toJson ⟨tid, sid,
        [hashChunk hf c1, hashChunk hf c2, hashChunk hf c3]⟩)))
    (hb1 : slookup (reconBlobKey (hashChunk hf c1)) st.objects = some (.bytes (comp c1)))
    (hb2 : slookup (reconBlobKey (hashChunk hf c2)) st.objects = some (.bytes (comp c2)))
    (hb3 : slookup (reconBlobKey (hashChunk hf c3)) st.objects = some (.bytes (comp c3)))
    (hd1 : dec (comp c1) = some c1)
    (hd2 : dec (comp c2) = some c2)
    (hd3 : dec (comp c3) = some c3) :
    reconstructMain st tid dec = .success tid sid (c1 ++ nl ++ c2 ++ nl ++ c3) 3 := by
  have hlen1 : ¬ (hashChunk hf c1).length < 12 := by rw [hashChunk_length hok]; omega
  have hlen2 : ¬ (hashChunk hf c2).length < 12 := by rw [hashChunk_length hok]; omega
  have hlen3 : ¬ (hashChunk hf c3).length < 12 := by rw [hashChunk_length hok]; omega
  have hdl1 : downloadAndDecompressBlob st dec (hashChunk hf c1) = .ok c1 := by
    rw [downloadAndDecompressBlob, hb1]
    simp only [hd1]
  have hdl2 : downloadAndDecompressBlob st dec (hashChunk hf c2) = .ok c2 := by
    rw [downloadAndDecompressBlob, hb2]
    simp only [hd2]
  have hdl3 : downloadAndDecompressBlob st dec (hashChunk hf c3) = .ok c3 := by
    rw [downloadAndDecompressBlob, hb3]
    simp only [hd3]
  have hdi : downloadIndex st tid = .ok ⟨tid, sid,
      [hashChunk hf c1, hashChunk hf c2, hashChunk hf c3]⟩ := by
    unfold downloadIndex
    rw [hidx]
    simp only [fromJson_toJson]
  unfold reconstructMain
  rw [hdi]
  simp only [reconLoop, if_neg hlen1, if_neg hlen2, if_neg hlen3, hdl1, hdl2, hdl3]
  simp [List.append_assoc]

/-- Claim C1 witness: the amended round trip evaluated against a bucket
holding an index over chunks c1, c2, c3 and their three blobs. -/
theorem claim_C1_wit :
    reconstructMain w1Store ("T1".data) cDec =
      .success ("T1".data) ("S1".data)
        ("c1".data ++ nl ++ "c2".data ++ nl ++ "c3".data) 3 :=
  claim_C1_thm w1Store ("T1".data) ("S1".data) ("c1".data) ("c2".data) ("c3".data)
    hTest cComp cDec hashOK_hTest rfl rfl rfl rfl rfl rfl rfl

/-- Claim C1 counterexample: with the chunking-time separator configured
as "|", the span content "a|b" chunks into a and b and the pipeline run
stores their blobs and the index, but reconstruction joins with the
hardcoded newline and yields "a\nb", not "a" ++ "|" ++ "b" as the claim
requires. -/
theorem claim_C1_cx :
    chunkContent cCfg.chunkSeparator cContent.content = ["a".data, "b".data] ∧
    cRun = .ok (PResult.state cRun) ∧
    reconstructMain (PResult.state cRun) ("T1".data) cDec =
      .success ("T1".data) ("S1".data) ("a\nb".data) 2 ∧
    ("a\nb".data : Str) ≠ "a".data ++ cCfg.chunkSeparator ++ "b".data :=
  ⟨rfl, rfl, rfl, by decide⟩

end Gravity
